import Mathlib

/-!
# blocking_base_task: a periodic LITMUS^RT task skeleton

A shallow embedding of `bin/blocking_base_task.c`.

* C `int` values are modelled as `Int`; arithmetic performed by the program is
  wrapped to 32 bits with `wrapInt`.
* Everything the program does that is visible from outside (scheduler calls with
  their return values, writes to stderr and stdout, `gettid`, `usleep`) is
  recorded, in program order, in a trace of `Event`s.
* The scheduler library and the C library are not part of the repository: the
  values their functions return are taken from an environment `Env`.
* The job loop of `main` need not terminate, so the run of `main` is indexed by
  a number of loop iterations (`fuel`); the outcome says whether the process
  exited, returned from `main`, or is still inside the loop.
-/

namespace BaseTask

/-! ## Machine integers -/

/-- Largest value of a C `int` (32 bit). -/
def INT_MAX : Int := 2147483647

/-- Smallest value of a C `int` (32 bit). -/
def INT_MIN : Int := -2147483648

/-- Two-complement wrap of a mathematical integer into the range of `int`. The
program's additions and its multiplication are wrapped with it; the claims below
that depend on the values stay within the range, where wrapping does nothing. -/
def wrapInt (x : Int) : Int := (x + 2147483648) % 4294967296 - 2147483648

/-! ## Events -/

/-- Argument of `task_mode`. -/
inductive TaskMode where
  | BACKGROUND_TASK
  | LITMUS_RT_TASK
  deriving DecidableEq, Repr

/-- The scheduler-facing calls made by `main`, with their arguments. -/
inductive SchedCall where
  | init_litmus
  | sporadic_global (e p : Int)
  | task_mode (m : TaskMode)
  | wait_for_ts_release
  | sleep_next_period
  deriving DecidableEq, Repr

/-- What a job invocation does that is visible from outside. -/
inductive JobEvent where
  /-- The line `printf("rt_id: %d \t nbr. times called: %d \n", rt_id, val)`. -/
  | printf (rt_id val : Int)
  /-- The call `usleep(us)`. -/
  | usleep (us : Int)
  deriving DecidableEq, Repr

/-- Events of a run of `main`, in program order. -/
inductive Event where
  /-- The usage text written to stderr. -/
  | usage
  /-- A scheduler call together with the value it returned. -/
  | call (c : SchedCall) (ret : Int)
  /-- The line `"<exp> ok.\n"` written to stderr by `CALL`. -/
  | stderr_ok (exp : String)
  /-- The line `"<exp> failed: %m\n"` written to stderr by `CALL`. -/
  | stderr_failed (exp : String)
  /-- The call `gettid()` together with the value it returned. -/
  | gettid (tid : Int)
  /-- Control enters the job callback. -/
  | job_call
  /-- An effect of the running job callback. -/
  | job_effect (e : JobEvent)
  /-- The job callback returns `ret`. -/
  | job_ret (ret : Int)
  deriving DecidableEq, Repr

/-! ## Environment -/

/-- Return values of the functions that live outside the repository. -/
structure Env where
  /-- The C library `atoi`. -/
  atoi : String → Int
  init_litmus : Int
  sporadic_global : Int → Int → Int
  task_mode : TaskMode → Int
  gettid : Int
  wait_for_ts_release : Int
  /-- Return value of the `i`-th call (counted from 0) of `sleep_next_period`. -/
  sleep_next_period : Nat → Int

/-! ## The program -/

/-- The macro `CALL(exp)`: evaluate the call, then write one line to stderr,
`failed` when the call returned non-zero and `ok` otherwise. -/
def CALL (exp : String) (c : SchedCall) (ret : Int) : List Event :=
  [Event.call c ret, if ret ≠ 0 then Event.stderr_failed exp else Event.stderr_ok exp]

/-- What one invocation of a job callback leaves behind: the new values of
`*counter` and `*pCounter`, its visible effects, and its return value. -/
structure JobResult where
  counter : Int
  pCounter : Int
  out : List JobEvent
  ret : Int
  deriving DecidableEq, Repr

/-- The function `job(int *counter, int *pCounter, int sCounter)`; the global
`this_rt_id` it reads is passed as the first argument. -/
def job (this_rt_id counter pCounter sCounter : Int) : JobResult :=
  let pCounter := wrapInt (pCounter + 1)
  if pCounter = sCounter then
    let counter := wrapInt (counter + 1)
    { counter := counter
      pCounter := 0
      out := [JobEvent.printf this_rt_id (wrapInt (counter * sCounter)), JobEvent.usleep 10]
      ret := 0 }
  else
    { counter := counter
      pCounter := pCounter
      out := [JobEvent.usleep 10]
      ret := 0 }

/-- A job callback with the signature of `job`. The first argument is the number
of invocations made before this one, so that a callback may keep state of its
own; the others are `this_rt_id`, `*counter`, `*pCounter` and `sCounter`. -/
abbrev Callback := Nat → Int → Int → Int → Int → JobResult

/-- State of the job loop after some iterations. -/
structure LoopResult where
  trace : List Event
  counter : Int
  pCounter : Int
  /-- Whether the loop condition `!do_exit` has failed (the loop is over). -/
  stopped : Bool
  deriving DecidableEq, Repr

/-- The loop `do { sleep_next_period(); do_exit = job(...); } while (!do_exit);`
run for at most `fuel` iterations; `i` is the number of iterations made before. -/
def job_loop (cb : Callback) (env : Env) (this_rt_id sCounter : Int) :
    Nat → Nat → Int → Int → LoopResult
  | 0, _, counter, pCounter =>
    { trace := [], counter := counter, pCounter := pCounter, stopped := false }
  | fuel + 1, i, counter, pCounter =>
    let r := cb i this_rt_id counter pCounter sCounter
    let body := [Event.call SchedCall.sleep_next_period (env.sleep_next_period i), Event.job_call]
      ++ r.out.map Event.job_effect ++ [Event.job_ret r.ret]
    let do_exit := r.ret
    if do_exit ≠ 0 then
      { trace := body, counter := r.counter, pCounter := r.pCounter, stopped := true }
    else
      let rest := job_loop cb env this_rt_id sCounter fuel (i + 1) r.counter r.pCounter
      { rest with trace := body ++ rest.trace }

/-- How a run of `main` stands after the given number of loop iterations. -/
inductive Outcome where
  /-- The process ended through `exit(code)`. -/
  | exited (code : Int)
  /-- The function `main` returned `code`; the final values of the counters. -/
  | returned (code counter pCounter : Int)
  /-- Still inside the job loop; the current values of the counters. -/
  | running (counter pCounter : Int)
  deriving DecidableEq, Repr

/-- A run of `main`: its events so far and how it stands. -/
structure Run where
  trace : List Event
  outcome : Outcome
  deriving DecidableEq, Repr

/-- Steps 3 and 4 of `main` and the wait for the release: everything between the
parsing of the arguments and the job loop. -/
def startup (env : Env) (EXEC_COST PERIOD : Int) : List Event :=
  CALL "init_litmus()" SchedCall.init_litmus env.init_litmus
  ++ CALL "sporadic_global(EXEC_COST, PERIOD)" (SchedCall.sporadic_global EXEC_COST PERIOD)
      (env.sporadic_global EXEC_COST PERIOD)
  ++ CALL "task_mode(LITMUS_RT_TASK)" (SchedCall.task_mode TaskMode.LITMUS_RT_TASK)
      (env.task_mode TaskMode.LITMUS_RT_TASK)
  ++ [Event.gettid env.gettid, Event.call SchedCall.wait_for_ts_release env.wait_for_ts_release]

/-- Step 6 of `main`: the transition back to background mode. -/
def teardown (env : Env) : List Event :=
  CALL "task_mode(BACKGROUND_TASK)" (SchedCall.task_mode TaskMode.BACKGROUND_TASK)
    (env.task_mode TaskMode.BACKGROUND_TASK)

/-- The function `main` with the callback `cb` in the place of `job`, followed
for at most `fuel` iterations of its job loop. `argv` is the argument vector,
program name included, and `argc` is its length. -/
def mainWith (cb : Callback) (env : Env) (argv : List String) (fuel : Nat) : Run :=
  match argv with
  | [_, arg1, arg2, arg3] =>
    let EXEC_COST := env.atoi arg1
    let PERIOD := env.atoi arg2
    let sCounter := env.atoi arg3
    let counter := 0
    let pCounter := 0
    let this_rt_id := env.gettid
    let l := job_loop cb env this_rt_id sCounter fuel 0 counter pCounter
    if l.stopped then
      { trace := startup env EXEC_COST PERIOD ++ l.trace ++ teardown env
        outcome := Outcome.returned 0 l.counter l.pCounter }
    else
      { trace := startup env EXEC_COST PERIOD ++ l.trace
        outcome := Outcome.running l.counter l.pCounter }
  | _ => { trace := [Event.usage], outcome := Outcome.exited 1 }

/-- The function `main`, followed for at most `fuel` iterations of its job loop. -/
def main (env : Env) (argv : List String) (fuel : Nat) : Run :=
  mainWith (fun _ => job) env argv fuel

end BaseTask

namespace BaseTask

/-! ## Observations on traces -/

/-- Number of calls of the scheduler function `c` (with these arguments) in a trace. -/
def callsOf (c : SchedCall) (tr : List Event) : Nat :=
  tr.countP (fun e => match e with
    | Event.call c1 _ => decide (c1 = c)
    | _ => false)

/-- Number of times control entered the job callback in a trace. -/
def jobCalls (tr : List Event) : Nat :=
  tr.count Event.job_call

/-- The values printed by the diagnostic lines of the job, in order. -/
def printed (tr : List Event) : List Int :=
  tr.filterMap (fun e => match e with
    | Event.job_effect (JobEvent.printf _ v) => some v
    | _ => none)

/-- The three kinds of event the job loop is made of. -/
inductive LoopEv where
  | sleep
  | jobCall
  | jobRet
  deriving DecidableEq, Repr

/-- The loop event an event stands for, if any. -/
def loopEv : Event → Option LoopEv
  | Event.call SchedCall.sleep_next_period _ => some LoopEv.sleep
  | Event.job_call => some LoopEv.jobCall
  | Event.job_ret _ => some LoopEv.jobRet
  | _ => none

/-- A trace reduced to its `sleep_next_period` calls, job calls and job returns. -/
def loopView (tr : List Event) : List LoopEv :=
  tr.filterMap loopEv

/-- The loop events of `n` complete iterations: `sleep_next_period`, job call,
job return, `n` times over. -/
def rounds : Nat → List LoopEv
  | 0 => []
  | n + 1 => LoopEv.sleep :: LoopEv.jobCall :: LoopEv.jobRet :: rounds n

/-- Events that can occur inside the job loop when `job` is the callback. -/
def inLoop : Event → Bool
  | Event.call SchedCall.sleep_next_period _ => true
  | Event.job_call => true
  | Event.job_effect _ => true
  | Event.job_ret _ => true
  | _ => false

/-- Whether `main` makes the call through the macro `CALL`. -/
def viaCALL : SchedCall → Bool
  | SchedCall.init_litmus => true
  | SchedCall.sporadic_global _ _ => true
  | SchedCall.task_mode _ => true
  | SchedCall.wait_for_ts_release => false
  | SchedCall.sleep_next_period => false

/-- The text of the call expression as `main` writes it, which is what `CALL`
prints for it. -/
def exprOf : SchedCall → String
  | SchedCall.init_litmus => "init_litmus()"
  | SchedCall.sporadic_global _ _ => "sporadic_global(EXEC_COST, PERIOD)"
  | SchedCall.task_mode TaskMode.LITMUS_RT_TASK => "task_mode(LITMUS_RT_TASK)"
  | SchedCall.task_mode TaskMode.BACKGROUND_TASK => "task_mode(BACKGROUND_TASK)"
  | SchedCall.wait_for_ts_release => "wait_for_ts_release()"
  | SchedCall.sleep_next_period => "sleep_next_period()"

/-- The report that tells the outcome of the call `c` that returned `ret`. -/
def reportOf (c : SchedCall) (ret : Int) : Event :=
  if ret ≠ 0 then Event.stderr_failed (exprOf c) else Event.stderr_ok (exprOf c)

/-- The reports of call outcomes in a trace, in order. -/
def reports (tr : List Event) : List Event :=
  tr.filter (fun e => match e with
    | Event.stderr_ok _ => true
    | Event.stderr_failed _ => true
    | _ => false)

/-- For every call in a trace that `main` makes through `CALL`, the report that
tells its outcome, in order. -/
def dueReports (tr : List Event) : List Event :=
  tr.filterMap (fun e => match e with
    | Event.call c ret => if viaCALL c then some (reportOf c ret) else none
    | _ => none)

/-- In the trace every call made through `CALL` is followed at once by the report
of its outcome. -/
def Reported (tr : List Event) : Prop :=
  ∀ pre c r post, tr = pre ++ Event.call c r :: post → viaCALL c = true →
    post.head? = some (reportOf c r)

/-- The events that `job` is expected to leave on invocation number `i + 1`
when the reporting interval is `R`: a diagnostic line printing `i + 1` exactly
when `R` divides `i + 1`. -/
def jobRound (env : Env) (rt R : Int) (i : Nat) : List Event :=
  [Event.call SchedCall.sleep_next_period (env.sleep_next_period i), Event.job_call]
  ++ (if R ∣ ((i : Int) + 1) then [Event.job_effect (JobEvent.printf rt ((i : Int) + 1))] else [])
  ++ [Event.job_effect (JobEvent.usleep 10), Event.job_ret 0]

/-- The events of an invocation of `job` that prints nothing. -/
def quietRound (env : Env) (i : Nat) : List Event :=
  [Event.call SchedCall.sleep_next_period (env.sleep_next_period i), Event.job_call,
   Event.job_effect (JobEvent.usleep 10), Event.job_ret 0]

/-! ## Runs with an arbitrary callback -/

/-- The result of invocation number `j + 1` of the callback `cb` in a loop that
has made `i` iterations before and holds the counters `c` and `p`, provided the
`j` invocations before it are each followed by another one. -/
def invocationFrom (cb : Callback) (rt sCounter : Int) : Nat → Nat → Int → Int → JobResult
  | 0, i, c, p => cb i rt c p sCounter
  | j + 1, i, c, p =>
    invocationFrom cb rt sCounter j (i + 1) (cb i rt c p sCounter).counter
      (cb i rt c p sCounter).pCounter

/-- The result of invocation number `j + 1` of the callback in the run of
`mainWith cb env` whose third argument is read as `sCounter`. -/
def nthInvocation (cb : Callback) (env : Env) (sCounter : Int) (j : Nat) : JobResult :=
  invocationFrom cb env.gettid sCounter j 0 0 0

/-- A callback that does what `job` does but asks to stop on its third invocation. -/
def stopAtThird : Callback :=
  fun i rt c p sCounter => { job rt c p sCounter with ret := if i = 2 then 1 else 0 }

/-! ## A sample environment -/

/-- A reading of decimal arguments good enough for the sample runs: `"3"`, `"5"`
and `"10"` are read as numbers, anything else gives `0`. -/
def atoiDemo (s : String) : Int :=
  if s = "3" then 3 else if s = "5" then 5 else if s = "10" then 10 else 0

/-- An environment in which every scheduler call succeeds. -/
def demoEnv : Env :=
  { atoi := atoiDemo
    init_litmus := 0
    sporadic_global := fun _ _ => 0
    task_mode := fun _ => 0
    gettid := 42
    wait_for_ts_release := 0
    sleep_next_period := fun _ => 0 }

/-- The sample environment, except that the admission call fails. -/
def admitFailEnv : Env :=
  { demoEnv with sporadic_global := fun _ _ => -1 }

/-- The sample environment, except that the switch to real-time mode fails. -/
def enterFailEnv : Env :=
  { demoEnv with
    task_mode := fun m => match m with
      | TaskMode.LITMUS_RT_TASK => -1
      | TaskMode.BACKGROUND_TASK => 0 }

/-- The sample environment, except that both waiting calls fail. -/
def waitFailEnv : Env :=
  { demoEnv with wait_for_ts_release := -1, sleep_next_period := fun _ => -1 }

/-! ## Arithmetic of `job` -/

lemma wrapInt_of_range (x : Int) (h1 : INT_MIN ≤ x) (h2 : x ≤ INT_MAX) : wrapInt x = x := by
  unfold INT_MIN at h1
  unfold INT_MAX at h2
  unfold wrapInt
  omega

/-- Wrapping does nothing to a literal-bounded value in the range of `int`. -/
lemma wrapInt_eq (x : Int) (h1 : -2147483648 ≤ x) (h2 : x ≤ 2147483647) : wrapInt x = x := by
  unfold wrapInt
  omega

lemma job_ret_zero (rt c p R : Int) : (job rt c p R).ret = 0 := by
  simp only [job]
  split <;> rfl

/-- One invocation of `job` under the counting invariant `c * R + p = i`. -/
lemma job_step (rt c p R : Int) (i : Nat) (hR : 0 < R) (hp0 : 0 ≤ p) (hp : p < R)
    (hc : 0 ≤ c) (hi : c * R + p = i) (hmax : (i : Int) + 1 ≤ INT_MAX) :
    ∃ c1 p1, job rt c p R =
        { counter := c1, pCounter := p1
          out := (if R ∣ ((i : Int) + 1) then [JobEvent.printf rt ((i : Int) + 1)] else [])
            ++ [JobEvent.usleep 10]
          ret := 0 }
      ∧ 0 ≤ p1 ∧ p1 < R ∧ 0 ≤ c1 ∧ c1 * R + p1 = ((i + 1 : Nat) : Int) := by
  unfold INT_MAX at hmax
  have hcR : c ≤ c * R := le_mul_of_one_le_right hc (by omega)
  have hcR0 : 0 ≤ c * R := mul_nonneg hc (by omega)
  have hw : wrapInt (p + 1) = p + 1 := wrapInt_eq _ (by omega) (by omega)
  by_cases h : p + 1 = R
  · have hdvd : R ∣ ((i : Int) + 1) := by
      refine ⟨c + 1, ?_⟩
      rw [← hi, mul_add, mul_one, mul_comm R c]
      omega
    have hw2 : wrapInt (c + 1) = c + 1 := wrapInt_eq _ (by omega) (by omega)
    have hj : wrapInt (p + 1) = R := by rw [hw, h]
    have hmul : (c + 1) * R = (i : Int) + 1 := by
      rw [add_mul, one_mul, ← hi]
      omega
    have hw3 : wrapInt ((c + 1) * R) = (i : Int) + 1 := by
      rw [hmul]
      exact wrapInt_eq _ (by omega) (by omega)
    refine ⟨c + 1, 0, ?_, le_refl 0, hR, by omega, ?_⟩
    · simp [job, hj, hw2, hw3, hdvd]
    · push_cast
      rw [add_zero]
      exact hmul
  · have hndvd : ¬ R ∣ ((i : Int) + 1) := by
      rintro ⟨q, hq⟩
      have h1 : R * (q - c) = p + 1 := by
        rw [mul_sub, ← hq, ← hi, mul_comm R c]
        omega
      have hq1 : 0 < q - c := by
        by_contra hneg
        have : R * (q - c) ≤ 0 := mul_nonpos_of_nonneg_of_nonpos (by omega) (by omega)
        omega
      have : R ≤ R * (q - c) := le_mul_of_one_le_right (by omega) (by omega)
      omega
    refine ⟨c, p + 1, ?_, by omega, by omega, hc, ?_⟩
    · simp [job, hw, h, hndvd]
    · push_cast
      omega

/-- One invocation of `job` when the reporting interval is not positive. -/
lemma job_step_nonpos (rt c p R : Int) (hR : R ≤ 0) (hp0 : 0 ≤ p) (hmax : p + 1 ≤ INT_MAX) :
    job rt c p R = { counter := c, pCounter := p + 1, out := [JobEvent.usleep 10], ret := 0 } := by
  unfold INT_MAX at hmax
  have hw : wrapInt (p + 1) = p + 1 := wrapInt_eq _ (by omega) (by omega)
  have h : ¬ p + 1 = R := by omega
  simp [job, hw, h]

/-! ## The job loop with `job` as its callback -/

/-- The loop under the counting invariant, for a positive reporting interval. -/
lemma job_loop_pos (env : Env) (rt R : Int) (hR : 0 < R) :
    ∀ (n i : Nat) (c p : Int), 0 ≤ p → p < R → 0 ≤ c → c * R + p = i →
      ((i + n : Nat) : Int) ≤ INT_MAX →
      ∃ c1 p1, job_loop (fun _ => job) env rt R n i c p =
          { trace := (List.range' i n).flatMap (jobRound env rt R)
            counter := c1, pCounter := p1, stopped := false }
        ∧ 0 ≤ p1 ∧ p1 < R ∧ 0 ≤ c1 ∧ c1 * R + p1 = ((i + n : Nat) : Int) := by
  intro n
  induction n with
  | zero =>
    intro i c p hp0 hp hc hi _
    exact ⟨c, p, by simp [job_loop], hp0, hp, hc, by simpa using hi⟩
  | succ n ih =>
    intro i c p hp0 hp hc hi hmax
    have hmax1 : (i : Int) + 1 ≤ INT_MAX := by
      unfold INT_MAX at hmax ⊢
      push_cast at hmax
      omega
    obtain ⟨c1, p1, hjob, h1, h2, h3, h4⟩ := job_step rt c p R i hR hp0 hp hc hi hmax1
    have hmax2 : ((i + 1 + n : Nat) : Int) ≤ INT_MAX := by
      unfold INT_MAX at hmax ⊢
      push_cast at hmax ⊢
      omega
    obtain ⟨c2, p2, hloop, g1, g2, g3, g4⟩ := ih (i + 1) c1 p1 h1 h2 h3 h4 hmax2
    refine ⟨c2, p2, ?_, g1, g2, g3, ?_⟩
    · simp only [job_loop, hjob, hloop, List.range'_succ, List.flatMap_cons, jobRound]
      by_cases hd : R ∣ ((i : Int) + 1) <;> simp [hd]
    · rw [g4]
      congr 1
      omega

/-- The loop for a reporting interval that is not positive. -/
lemma job_loop_nonpos (env : Env) (rt R : Int) (hR : R ≤ 0) :
    ∀ (n i : Nat) (c p : Int), 0 ≤ p → p + n ≤ INT_MAX →
      job_loop (fun _ => job) env rt R n i c p =
        { trace := (List.range' i n).flatMap (quietRound env)
          counter := c, pCounter := p + n, stopped := false } := by
  intro n
  induction n with
  | zero =>
    intro i c p _ _
    simp [job_loop]
  | succ n ih =>
    intro i c p hp0 hmax
    have hmax1 : p + 1 ≤ INT_MAX := by
      unfold INT_MAX at hmax ⊢
      push_cast at hmax
      omega
    have hmax2 : p + 1 + (n : Int) ≤ INT_MAX := by
      unfold INT_MAX at hmax ⊢
      push_cast at hmax
      omega
    have hjob := job_step_nonpos rt c p R hR hp0 hmax1
    have hloop := ih (i + 1) c (p + 1) (by omega) hmax2
    simp only [job_loop, hjob, hloop, List.range'_succ, List.flatMap_cons, quietRound]
    simp
    omega

/-- With `job` as its callback the loop never stops. -/
lemma job_loop_job_running (env : Env) (rt R : Int) :
    ∀ (n i : Nat) (c p : Int), (job_loop (fun _ => job) env rt R n i c p).stopped = false := by
  intro n
  induction n with
  | zero => intro i c p; rfl
  | succ n ih =>
    intro i c p
    simp only [job_loop, job_ret_zero, ne_eq, not_true_eq_false, if_false]
    exact ih _ _ _

/-- With `job` as its callback the loop is a sequence of complete rounds. -/
lemma job_loop_job_view (env : Env) (rt R : Int) :
    ∀ (n i : Nat) (c p : Int),
      loopView (job_loop (fun _ => job) env rt R n i c p).trace = rounds n := by
  intro n
  induction n with
  | zero => intro i c p; rfl
  | succ n ih =>
    intro i c p
    simp only [job_loop, job_ret_zero, ne_eq, not_true_eq_false, if_false]
    have h := ih (i + 1) (job rt c p R).counter (job rt c p R).pCounter
    simp only [loopView] at h ⊢
    simp [List.filterMap_append, loopEv, rounds, h, List.filterMap_map, Function.comp_def]

/-- With `job` as its callback the loop makes no event other than its own. -/
lemma job_loop_job_events (env : Env) (rt R : Int) :
    ∀ (n i : Nat) (c p : Int),
      ∀ e ∈ (job_loop (fun _ => job) env rt R n i c p).trace, inLoop e = true := by
  intro n
  induction n with
  | zero => intro i c p e he; simp [job_loop] at he
  | succ n ih =>
    intro i c p e he
    simp only [job_loop, job_ret_zero, ne_eq, not_true_eq_false, if_false] at he
    simp only [List.mem_append, List.mem_cons, List.mem_map, List.mem_singleton,
      List.not_mem_nil, or_false] at he
    rcases he with ((((rfl | rfl) | ⟨x, _, rfl⟩) | rfl) | h)
    · rfl
    · rfl
    · rfl
    · rfl
    · exact ih _ _ _ e h

/-! ## Counting in traces -/

lemma jobCalls_eq_count (tr : List Event) :
    jobCalls tr = (loopView tr).count LoopEv.jobCall := by
  induction tr with
  | nil => rfl
  | cons e tr ih =>
    unfold jobCalls loopView at *
    cases e with
    | call c r => cases c <;> simp [loopEv, List.count_cons, ih]
    | _ => simp [loopEv, List.count_cons, ih]

lemma sleeps_eq_count (tr : List Event) :
    callsOf SchedCall.sleep_next_period tr = (loopView tr).count LoopEv.sleep := by
  induction tr with
  | nil => rfl
  | cons e tr ih =>
    unfold callsOf loopView at *
    cases e with
    | call c r => cases c <;> simp [loopEv, List.count_cons, List.countP_cons, ih]
    | _ => simp [loopEv, List.count_cons, List.countP_cons, ih]

lemma count_rounds (n : Nat) :
    (rounds n).count LoopEv.sleep = n ∧ (rounds n).count LoopEv.jobCall = n
      ∧ (rounds n).count LoopEv.jobRet = n := by
  induction n with
  | zero => simp [rounds]
  | succ n ih => simp [rounds, List.count_cons, ih]

lemma loopView_startup (env : Env) (e p : Int) : loopView (startup env e p) = [] := by
  simp only [startup, CALL, loopView]
  split_ifs <;> rfl

lemma callsOf_inLoop (c : SchedCall) (hc : c ≠ SchedCall.sleep_next_period) (tr : List Event)
    (h : ∀ e ∈ tr, inLoop e = true) : callsOf c tr = 0 := by
  unfold callsOf
  rw [List.countP_eq_zero]
  intro e he
  have := h e he
  cases e with
  | call c1 r =>
    cases c1 <;> simp_all [inLoop]
    exact fun h => hc h.symm
  | _ => simp

/-- A job call inside a sequence of complete rounds comes after complete rounds
and one `sleep_next_period`. -/
lemma rounds_split :
    ∀ (n : Nat) (xs ys : List LoopEv), xs ++ LoopEv.jobCall :: ys = rounds n →
      xs = rounds (xs.count LoopEv.jobCall) ++ [LoopEv.sleep] := by
  intro n
  induction n with
  | zero => intro xs ys h; simp [rounds] at h
  | succ n ih =>
    intro xs ys h
    match xs, h with
    | [], h => simp [rounds] at h
    | [x], h =>
      simp only [rounds, List.cons_append, List.nil_append, List.cons.injEq] at h
      obtain ⟨rfl, _⟩ := h
      rfl
    | [x, y], h =>
      simp [rounds] at h
    | x :: y :: z :: xs3, h =>
      simp only [rounds, List.cons_append, List.cons.injEq] at h
      obtain ⟨rfl, rfl, rfl, h3⟩ := h
      have := ih xs3 ys h3
      simp only [List.count_cons, rounds]
      simp only [beq_iff_eq, reduceCtorEq, if_false, if_true, add_zero, rounds, List.cons_append,
        List.cons.injEq, true_and]
      exact this

/-! ## Runs of `main` -/

/-- With four arguments `main` runs the startup and then stays in the job loop. -/
lemma main_run (env : Env) (a0 a1 a2 a3 : String) (n : Nat) :
    main env [a0, a1, a2, a3] n =
      { trace := startup env (env.atoi a1) (env.atoi a2)
          ++ (job_loop (fun _ => job) env env.gettid (env.atoi a3) n 0 0 0).trace
        outcome := Outcome.running
          (job_loop (fun _ => job) env env.gettid (env.atoi a3) n 0 0 0).counter
          (job_loop (fun _ => job) env env.gettid (env.atoi a3) n 0 0 0).pCounter } := by
  simp [main, mainWith, job_loop_job_running]

lemma main_jobCalls (env : Env) (a0 a1 a2 a3 : String) (n : Nat) :
    jobCalls (main env [a0, a1, a2, a3] n).trace = n := by
  rw [main_run, jobCalls_eq_count]
  simp only [loopView, List.filterMap_append]
  have h1 := loopView_startup env (env.atoi a1) (env.atoi a2)
  have h2 := job_loop_job_view env env.gettid (env.atoi a3) n 0 0 0
  simp only [loopView] at h1 h2
  rw [h1, h2, List.nil_append]
  exact (count_rounds n).2.1

/-- The counters of `main` after `n` loop iterations, reporting interval positive. -/
lemma main_pos (env : Env) (a0 a1 a2 a3 : String) (n : Nat)
    (hR : 0 < env.atoi a3) (hn : (n : Int) ≤ INT_MAX) :
    main env [a0, a1, a2, a3] n =
      { trace := startup env (env.atoi a1) (env.atoi a2)
          ++ (List.range n).flatMap (jobRound env env.gettid (env.atoi a3))
        outcome := Outcome.running ((n : Int) / env.atoi a3) ((n : Int) % env.atoi a3) } := by
  obtain ⟨c1, p1, hloop, h1, h2, _, h4⟩ :=
    job_loop_pos env env.gettid (env.atoi a3) hR n 0 0 0 (le_refl 0) hR (le_refl 0)
      (by simp) (by simpa using hn)
  have hdm : (n : Int) / env.atoi a3 = c1 ∧ (n : Int) % env.atoi a3 = p1 := by
    rw [Int.ediv_emod_unique hR]
    refine ⟨?_, h1, h2⟩
    rw [mul_comm, add_comm]
    simpa using h4
  rw [main_run, hloop, hdm.1, hdm.2, List.range_eq_range']

lemma printed_startup (env : Env) (e p : Int) : printed (startup env e p) = [] := by
  simp only [startup, CALL, printed]
  split_ifs <;> rfl

lemma printed_jobRound (env : Env) (rt R : Int) (i : Nat) :
    printed (jobRound env rt R i) = if R ∣ ((i : Int) + 1) then [(i : Int) + 1] else [] := by
  unfold jobRound printed
  split_ifs <;> rfl

/-- The lines printed in `n` rounds: one for every multiple of the interval. -/
lemma printed_rounds (env : Env) (rt : Int) (r : Nat) :
    ∀ n : Nat, printed ((List.range n).flatMap (jobRound env rt (r : Int)))
      = (List.range (n / r)).map (fun (k : Nat) => ((k : Int) + 1) * (r : Int)) := by
  intro n
  induction n with
  | zero => simp [printed]
  | succ n ih =>
    have happ : printed ((List.range (n + 1)).flatMap (jobRound env rt (r : Int)))
        = printed ((List.range n).flatMap (jobRound env rt (r : Int)))
          ++ printed (jobRound env rt (r : Int) n) := by
      simp [printed, List.range_succ, List.flatMap_append, List.filterMap_append]
    rw [happ, ih, printed_jobRound, Nat.succ_div]
    by_cases hd : r ∣ n + 1
    · have hdz : (r : Int) ∣ ((n : Int) + 1) := by exact_mod_cast hd
      have hq : (n / r + 1) * r = n + 1 := by
        have h1 : (n + 1) / r = n / r + 1 := by rw [Nat.succ_div, if_pos hd]
        rw [← h1]
        exact Nat.div_mul_cancel hd
      have hqz : (((n / r : Nat) : Int) + 1) * (r : Int) = (n : Int) + 1 := by exact_mod_cast hq
      rw [if_pos hd, if_pos hdz, List.range_succ, List.map_append, List.map_singleton, hqz]
    · have hdz : ¬ (r : Int) ∣ ((n : Int) + 1) := by
        intro h
        exact hd (by exact_mod_cast h)
      rw [if_neg hd, if_neg hdz, add_zero, List.append_nil]

lemma printed_quiet (env : Env) :
    ∀ (n i : Nat), printed ((List.range' i n).flatMap (quietRound env)) = [] := by
  intro n
  induction n with
  | zero => intro i; simp [printed]
  | succ n ih =>
    intro i
    have := ih (i + 1)
    simp only [printed] at this ⊢
    simp [List.range'_succ, List.flatMap_cons, List.filterMap_append, quietRound, this]

/-! ## The job loop with an arbitrary callback -/

/-- If the callback first asks to stop on invocation `m + 1`, the loop, given at
least `m + 1` iterations, stops there: it is made of `m + 1` complete rounds, the
last event being the return of that invocation. -/
lemma job_loop_stops (cb : Callback) (env : Env) (rt sC : Int) :
    ∀ (m fuel i : Nat) (c p : Int), m + 1 ≤ fuel →
      (∀ j, j < m → (invocationFrom cb rt sC j i c p).ret = 0) →
      (invocationFrom cb rt sC m i c p).ret ≠ 0 →
      (job_loop cb env rt sC fuel i c p).stopped = true
        ∧ (job_loop cb env rt sC fuel i c p).counter = (invocationFrom cb rt sC m i c p).counter
        ∧ (job_loop cb env rt sC fuel i c p).pCounter
            = (invocationFrom cb rt sC m i c p).pCounter
        ∧ loopView (job_loop cb env rt sC fuel i c p).trace = rounds (m + 1)
        ∧ (∀ e ∈ (job_loop cb env rt sC fuel i c p).trace, inLoop e = true)
        ∧ ∃ pre, (job_loop cb env rt sC fuel i c p).trace
            = pre ++ [Event.job_ret (invocationFrom cb rt sC m i c p).ret] := by
  intro m
  induction m with
  | zero =>
    intro fuel i c p hfuel _ hstop
    obtain ⟨f, rfl⟩ : ∃ f, fuel = f + 1 := ⟨fuel - 1, by omega⟩
    simp only [invocationFrom] at hstop ⊢
    simp only [job_loop, ne_eq, hstop, not_false_eq_true, if_true]
    refine ⟨trivial, trivial, trivial, ?_, ?_, ⟨_, rfl⟩⟩
    · simp [loopView, List.filterMap_append, loopEv, rounds, List.filterMap_map,
        Function.comp_def]
    · intro e he
      simp only [List.mem_append, List.mem_cons, List.mem_map, List.mem_singleton,
        List.not_mem_nil, or_false] at he
      rcases he with (((rfl | rfl) | ⟨x, _, rfl⟩) | rfl) <;> rfl
  | succ m ih =>
    intro fuel i c p hfuel hcont hstop
    obtain ⟨f, rfl⟩ : ∃ f, fuel = f + 1 := ⟨fuel - 1, by omega⟩
    have h0 : (cb i rt c p sC).ret = 0 := by
      have := hcont 0 (by omega)
      simpa [invocationFrom] using this
    have hcont1 : ∀ j, j < m →
        (invocationFrom cb rt sC j (i + 1) (cb i rt c p sC).counter
          (cb i rt c p sC).pCounter).ret = 0 := by
      intro j hj
      have := hcont (j + 1) (by omega)
      simpa [invocationFrom] using this
    have hstop1 : (invocationFrom cb rt sC m (i + 1) (cb i rt c p sC).counter
        (cb i rt c p sC).pCounter).ret ≠ 0 := by
      simpa [invocationFrom] using hstop
    obtain ⟨g1, g2, g3, g4, g5, pre, g6⟩ :=
      ih f (i + 1) (cb i rt c p sC).counter (cb i rt c p sC).pCounter (by omega) hcont1 hstop1
    simp only [invocationFrom]
    simp only [job_loop, ne_eq, h0, not_true_eq_false, if_false]
    refine ⟨g1, g2, g3, ?_, ?_, ?_⟩
    · simp only [loopView] at g4 ⊢
      simp [List.filterMap_append, loopEv, rounds, g4, List.filterMap_map, Function.comp_def]
    · intro e he
      simp only [List.mem_append, List.mem_cons, List.mem_map, List.mem_singleton,
        List.not_mem_nil, or_false] at he
      rcases he with ((((rfl | rfl) | ⟨x, _, rfl⟩) | rfl) | h)
      · rfl
      · rfl
      · rfl
      · rfl
      · exact g5 e h
    · refine ⟨[Event.call SchedCall.sleep_next_period (env.sleep_next_period i), Event.job_call]
        ++ List.map Event.job_effect (cb i rt c p sC).out ++ [Event.job_ret 0] ++ pre, ?_⟩
      rw [g6]
      simp

lemma callsOf_startup_background (env : Env) (e p : Int) :
    callsOf (SchedCall.task_mode TaskMode.BACKGROUND_TASK) (startup env e p) = 0 := by
  simp only [startup, CALL, callsOf]
  split_ifs <;> rfl

lemma callsOf_teardown_background (env : Env) :
    callsOf (SchedCall.task_mode TaskMode.BACKGROUND_TASK) (teardown env) = 1 := by
  simp only [teardown, CALL, callsOf]
  split_ifs <;> rfl

lemma loopView_teardown (env : Env) : loopView (teardown env) = [] := by
  simp only [teardown, CALL, loopView]
  split_ifs <;> rfl

/-! ## Reports of call outcomes -/

/-- Whatever the callback, the loop makes no event other than its own. -/
lemma job_loop_events (cb : Callback) (env : Env) (rt sC : Int) :
    ∀ (n i : Nat) (c p : Int), ∀ e ∈ (job_loop cb env rt sC n i c p).trace, inLoop e = true := by
  intro n
  induction n with
  | zero => intro i c p e he; simp [job_loop] at he
  | succ n ih =>
    intro i c p e he
    simp only [job_loop] at he
    split_ifs at he with h0
    · simp only [List.mem_append, List.mem_cons, List.mem_map, List.mem_singleton,
        List.not_mem_nil, or_false] at he
      rcases he with (((rfl | rfl) | ⟨x, _, rfl⟩) | rfl) <;> rfl
    · simp only [List.mem_append, List.mem_cons, List.mem_map, List.mem_singleton,
        List.not_mem_nil, or_false] at he
      rcases he with ((((rfl | rfl) | ⟨x, _, rfl⟩) | rfl) | h)
      · rfl
      · rfl
      · rfl
      · rfl
      · exact ih _ _ _ e h

/-- The shape of every run of `mainWith` on four arguments. -/
lemma mainWith_shape (cb : Callback) (env : Env) (a0 a1 a2 a3 : String) (n : Nat) :
    ∃ L, (∀ e ∈ L, inLoop e = true)
      ∧ (((mainWith cb env [a0, a1, a2, a3] n).trace
            = startup env (env.atoi a1) (env.atoi a2) ++ L
          ∧ ∃ c p, (mainWith cb env [a0, a1, a2, a3] n).outcome = Outcome.running c p)
        ∨ ((mainWith cb env [a0, a1, a2, a3] n).trace
            = startup env (env.atoi a1) (env.atoi a2) ++ L ++ teardown env
          ∧ ∃ c p, (mainWith cb env [a0, a1, a2, a3] n).outcome = Outcome.returned 0 c p)) := by
  refine ⟨(job_loop cb env env.gettid (env.atoi a3) n 0 0 0).trace,
    job_loop_events cb env env.gettid (env.atoi a3) n 0 0 0, ?_⟩
  by_cases h : (job_loop cb env env.gettid (env.atoi a3) n 0 0 0).stopped = true
  · right
    simp [mainWith, h]
  · left
    simp [mainWith, h]

lemma reports_inLoop (L : List Event) (h : ∀ e ∈ L, inLoop e = true) : reports L = [] := by
  unfold reports
  rw [List.filter_eq_nil_iff]
  intro e he
  have := h e he
  cases e <;> simp_all [inLoop]

lemma dueReports_inLoop (L : List Event) (h : ∀ e ∈ L, inLoop e = true) :
    dueReports L = [] := by
  unfold dueReports
  rw [List.filterMap_eq_nil_iff]
  intro e he
  have := h e he
  cases e with
  | call c r => cases c <;> simp_all [inLoop, viaCALL]
  | _ => rfl

lemma reports_startup (env : Env) (e p : Int) :
    reports (startup env e p) = dueReports (startup env e p) := by
  by_cases h0 : env.init_litmus = 0 <;> by_cases h1 : env.sporadic_global e p = 0 <;>
    by_cases h2 : env.task_mode TaskMode.LITMUS_RT_TASK = 0 <;>
    simp [startup, CALL, reports, dueReports, reportOf, exprOf, viaCALL, h0, h1, h2]

lemma reports_teardown (env : Env) : reports (teardown env) = dueReports (teardown env) := by
  by_cases h0 : env.task_mode TaskMode.BACKGROUND_TASK = 0 <;>
    simp [teardown, CALL, reports, dueReports, reportOf, exprOf, viaCALL, h0]

lemma Reported.append {xs ys : List Event} (hx : Reported xs) (hy : Reported ys) :
    Reported (xs ++ ys) := by
  intro pre c r post h hc
  rw [List.append_eq_append_iff] at h
  rcases h with ⟨a, rfl, h2⟩ | ⟨b, rfl, h2⟩
  · exact hy a c r post h2 hc
  · cases b with
    | nil => exact hy [] c r post (by simpa using h2.symm) hc
    | cons x b =>
      simp only [List.cons_append, List.cons.injEq] at h2
      obtain ⟨rfl, rfl⟩ := h2
      have := hx pre c r b rfl hc
      cases b with
      | nil => simp at this
      | cons y b => simpa using this

lemma Reported.of_no_call (tr : List Event)
    (h : ∀ c r, Event.call c r ∈ tr → viaCALL c = false) : Reported tr := by
  intro pre c r post htr hc
  have := h c r (by rw [htr]; simp)
  rw [hc] at this
  cases this

lemma Reported.of_inLoop (L : List Event) (h : ∀ e ∈ L, inLoop e = true) : Reported L := by
  apply Reported.of_no_call
  intro c r hmem
  have := h _ hmem
  cases c <;> simp_all [inLoop, viaCALL]

lemma Reported.of_CALL (c : SchedCall) (r : Int) : Reported (CALL (exprOf c) c r) := by
  intro pre c1 r1 post h _
  unfold CALL at h
  match pre, h with
  | [], h =>
    simp only [List.nil_append, List.cons.injEq, Event.call.injEq] at h
    obtain ⟨⟨rfl, rfl⟩, rfl⟩ := h
    rfl
  | [x], h =>
    simp only [List.cons_append, List.nil_append, List.cons.injEq] at h
    obtain ⟨_, h2, _⟩ := h
    split_ifs at h2
  | x :: y :: zs, h =>
    simp at h

lemma Reported.startup (env : Env) (e p : Int) : Reported (startup env e p) := by
  unfold BaseTask.startup
  refine Reported.append (Reported.append (Reported.append ?_ ?_) ?_) ?_
  · exact Reported.of_CALL SchedCall.init_litmus _
  · exact Reported.of_CALL (SchedCall.sporadic_global e p) _
  · exact Reported.of_CALL (SchedCall.task_mode TaskMode.LITMUS_RT_TASK) _
  · apply Reported.of_no_call
    intro c r hmem
    simp only [List.mem_cons, List.mem_singleton, List.not_mem_nil, or_false] at hmem
    rcases hmem with h | h
    · cases h
    · cases h
      rfl

lemma Reported.teardown (env : Env) : Reported (teardown env) :=
  Reported.of_CALL (SchedCall.task_mode TaskMode.BACKGROUND_TASK) _

lemma main_sleeps (env : Env) (a0 a1 a2 a3 : String) (n : Nat) :
    callsOf SchedCall.sleep_next_period (main env [a0, a1, a2, a3] n).trace = n := by
  rw [main_run, sleeps_eq_count]
  simp only [loopView, List.filterMap_append]
  have h1 := loopView_startup env (env.atoi a1) (env.atoi a2)
  have h2 := job_loop_job_view env env.gettid (env.atoi a3) n 0 0 0
  simp only [loopView] at h1 h2
  rw [h1, h2, List.nil_append]
  exact (count_rounds n).1

/-! ## The claims -/

/-- C1: for a positive reporting interval `R` and `n` loop iterations (`n` within
the range of `int`), the trace of `main` is the startup followed by `n` rounds in
which invocation `i + 1` prints a diagnostic line exactly when `R` divides `i + 1`
and the line then prints `i + 1`; so the lines printed are `R, 2R, ..., (n / R) R`
and there are `n / R` of them. -/
theorem C1_report_lines (env : Env) (a0 a1 a2 a3 : String) (n : Nat)
    (hR : 0 < env.atoi a3) (hn : (n : Int) ≤ INT_MAX) :
    (main env [a0, a1, a2, a3] n).trace
        = startup env (env.atoi a1) (env.atoi a2)
          ++ (List.range n).flatMap (jobRound env env.gettid (env.atoi a3))
      ∧ printed (main env [a0, a1, a2, a3] n).trace
        = (List.range (n / (env.atoi a3).toNat)).map (fun (k : Nat) => ((k : Int) + 1) * env.atoi a3)
      ∧ (printed (main env [a0, a1, a2, a3] n).trace).length = n / (env.atoi a3).toNat
      ∧ jobCalls (main env [a0, a1, a2, a3] n).trace = n := by
  have hr : ((env.atoi a3).toNat : Int) = env.atoi a3 := Int.toNat_of_nonneg (le_of_lt hR)
  have hp : printed (main env [a0, a1, a2, a3] n).trace
      = (List.range (n / (env.atoi a3).toNat)).map (fun (k : Nat) => ((k : Int) + 1) * env.atoi a3) := by
    rw [main_pos env a0 a1 a2 a3 n hR hn]
    have h := printed_rounds env env.gettid (env.atoi a3).toNat n
    rw [hr] at h
    simp only [printed, List.filterMap_append] at h ⊢
    have h0 := printed_startup env (env.atoi a1) (env.atoi a2)
    simp only [printed] at h0
    rw [h0, h, List.nil_append]
  refine ⟨?_, hp, ?_, main_jobCalls env a0 a1 a2 a3 n⟩
  · rw [main_pos env a0 a1 a2 a3 n hR hn]
  · rw [hp, List.length_map, List.length_range]

/-- C1 at reporting interval 5 and 10 invocations: exactly the two lines 5 and 10. -/
theorem C1_report_lines_witness :
    (0 < demoEnv.atoi "5" ∧ ((10 : Nat) : Int) ≤ INT_MAX)
      ∧ printed (main demoEnv ["base_task", "5", "10", "5"] 10).trace
        = (List.range (10 / (demoEnv.atoi "5").toNat)).map
            (fun (k : Nat) => ((k : Int) + 1) * demoEnv.atoi "5")
      ∧ (printed (main demoEnv ["base_task", "5", "10", "5"] 10).trace).length
        = 10 / (demoEnv.atoi "5").toNat :=
  ⟨⟨by decide, by decide⟩,
    (C1_report_lines demoEnv "base_task" "5" "10" "5" 10 (by decide) (by decide)).2.1,
    (C1_report_lines demoEnv "base_task" "5" "10" "5" 10 (by decide) (by decide)).2.2.1⟩

/-- C9: for a positive reporting interval `R`, after `n` loop iterations of `main`
(`n` within the range of `int`) exactly `n` job invocations were made, `main` is
still in the loop, and its counters are `counter = n / R` and `pCounter = n % R`,
so that `0 <= pCounter < R` and `counter * R + pCounter = n`. -/
theorem C9_counter_invariant (env : Env) (a0 a1 a2 a3 : String) (n : Nat)
    (hR : 0 < env.atoi a3) (hn : (n : Int) ≤ INT_MAX) :
    jobCalls (main env [a0, a1, a2, a3] n).trace = n
      ∧ (main env [a0, a1, a2, a3] n).outcome
        = Outcome.running ((n : Int) / env.atoi a3) ((n : Int) % env.atoi a3)
      ∧ 0 ≤ (n : Int) % env.atoi a3
      ∧ (n : Int) % env.atoi a3 < env.atoi a3
      ∧ ((n : Int) / env.atoi a3) * env.atoi a3 + (n : Int) % env.atoi a3 = n := by
  refine ⟨main_jobCalls env a0 a1 a2 a3 n, ?_, Int.emod_nonneg _ (ne_of_gt hR),
    Int.emod_lt_of_pos _ hR, ?_⟩
  · rw [main_pos env a0 a1 a2 a3 n hR hn]
  · rw [mul_comm]
    exact Int.ediv_add_emod _ _

/-- C9 at reporting interval 3 after 10 invocations. -/
theorem C9_counter_invariant_witness :
    (0 < demoEnv.atoi "3" ∧ ((10 : Nat) : Int) ≤ INT_MAX)
      ∧ (main demoEnv ["base_task", "5", "10", "3"] 10).outcome
        = Outcome.running (((10 : Nat) : Int) / demoEnv.atoi "3")
            (((10 : Nat) : Int) % demoEnv.atoi "3") :=
  ⟨⟨by decide, by decide⟩,
    (C9_counter_invariant demoEnv "base_task" "5" "10" "3" 10 (by decide) (by decide)).2.1⟩

/-- C10: for a reporting interval `R <= 0`, after `n < 2^31` loop iterations of
`main` exactly `n` job invocations were made, no diagnostic line was printed,
`counter` is still 0 and `pCounter` is `n`. -/
theorem C10_nonpositive_interval (env : Env) (a0 a1 a2 a3 : String) (n : Nat)
    (hR : env.atoi a3 ≤ 0) (hn : (n : Int) < 2 ^ 31) :
    jobCalls (main env [a0, a1, a2, a3] n).trace = n
      ∧ printed (main env [a0, a1, a2, a3] n).trace = []
      ∧ (main env [a0, a1, a2, a3] n).outcome = Outcome.running 0 n := by
  have hmax : (0 : Int) + n ≤ INT_MAX := by
    unfold INT_MAX
    omega
  have hloop := job_loop_nonpos env env.gettid (env.atoi a3) hR n 0 0 0 (le_refl 0) hmax
  refine ⟨main_jobCalls env a0 a1 a2 a3 n, ?_, ?_⟩
  · rw [main_run, hloop]
    have h0 := printed_startup env (env.atoi a1) (env.atoi a2)
    have h1 := printed_quiet env n 0
    simp only [printed, List.filterMap_append] at h0 h1 ⊢
    rw [h0, h1, List.nil_append]
  · rw [main_run, hloop, zero_add]

/-- C10 for a non-numeric interval argument, read as 0, after 7 invocations. -/
theorem C10_nonpositive_interval_witness :
    (demoEnv.atoi "often" ≤ 0 ∧ ((7 : Nat) : Int) < 2 ^ 31)
      ∧ printed (main demoEnv ["base_task", "5", "10", "often"] 7).trace = []
      ∧ (main demoEnv ["base_task", "5", "10", "often"] 7).outcome
        = Outcome.running 0 (7 : Nat) :=
  ⟨⟨by decide, by decide⟩,
    (C10_nonpositive_interval demoEnv "base_task" "5" "10" "often" 7 (by decide) (by decide)).2⟩

/-- C8: `job` returns 0 for every counter state and reporting interval; hence
after `n` loop iterations of `main`, for every `n`, exactly `n` job invocations
were made, `main` is still in the loop and `task_mode(BACKGROUND_TASK)` has not
been called. -/
theorem C8_job_never_stops (env : Env) (a0 a1 a2 a3 : String) (n : Nat) (rt c p R : Int) :
    (job rt c p R).ret = 0
      ∧ jobCalls (main env [a0, a1, a2, a3] n).trace = n
      ∧ (∃ c1 p1, (main env [a0, a1, a2, a3] n).outcome = Outcome.running c1 p1)
      ∧ callsOf (SchedCall.task_mode TaskMode.BACKGROUND_TASK)
          (main env [a0, a1, a2, a3] n).trace = 0 := by
  refine ⟨job_ret_zero rt c p R, main_jobCalls env a0 a1 a2 a3 n, ?_, ?_⟩
  · rw [main_run]
    exact ⟨_, _, rfl⟩
  · rw [main_run]
    have h1 : callsOf (SchedCall.task_mode TaskMode.BACKGROUND_TASK)
        (startup env (env.atoi a1) (env.atoi a2)) = 0 := by
      simp only [startup, CALL, callsOf]
      split_ifs <;> rfl
    have h2 := callsOf_inLoop (SchedCall.task_mode TaskMode.BACKGROUND_TASK) (by simp) _
      (job_loop_job_events env env.gettid (env.atoi a3) n 0 0 0)
    simp only [callsOf, List.countP_append] at h1 h2 ⊢
    rw [h1, h2]

/-- C6: in the trace of `main` after `n` loop iterations the `sleep_next_period`
calls, job calls and job returns form exactly `n` rounds sleep, call, return; and
whatever precedes a job call in that trace consists, as far as these events go,
of `N - 1` complete rounds followed by one `sleep_next_period`, where `N` is the
number of that invocation: `N` sleeps precede invocation `N`, the last of them
after the return of invocation `N - 1`. -/
theorem C6_alternation (env : Env) (a0 a1 a2 a3 : String) (n : Nat) :
    loopView (main env [a0, a1, a2, a3] n).trace = rounds n
      ∧ ∀ pre post, (main env [a0, a1, a2, a3] n).trace = pre ++ Event.job_call :: post →
          loopView pre = rounds (jobCalls pre) ++ [LoopEv.sleep]
            ∧ callsOf SchedCall.sleep_next_period pre = jobCalls pre + 1
            ∧ (loopView pre).count LoopEv.jobRet = jobCalls pre := by
  have hview : loopView (main env [a0, a1, a2, a3] n).trace = rounds n := by
    rw [main_run]
    have h1 := loopView_startup env (env.atoi a1) (env.atoi a2)
    have h2 := job_loop_job_view env env.gettid (env.atoi a3) n 0 0 0
    simp only [loopView, List.filterMap_append] at h1 h2 ⊢
    rw [h1, h2, List.nil_append]
  refine ⟨hview, ?_⟩
  intro pre post hsplit
  rw [hsplit] at hview
  have hv : loopView pre ++ LoopEv.jobCall :: loopView post = rounds n := by
    rw [← hview]
    simp [loopView, List.filterMap_append, loopEv]
  have hpre := rounds_split n (loopView pre) (loopView post) hv
  rw [← jobCalls_eq_count] at hpre
  refine ⟨hpre, ?_, ?_⟩
  · rw [sleeps_eq_count, hpre, List.count_append, (count_rounds _).1]
    rfl
  · conv_lhs => rw [hpre]
    rw [List.count_append, (count_rounds _).2.2]
    rfl

/-- C6 for the third job call of a run of three iterations. -/
theorem C6_alternation_witness :
    (main demoEnv ["base_task", "5", "10", "5"] 3).trace
        = (main demoEnv ["base_task", "5", "10", "5"] 3).trace.take 17
          ++ Event.job_call :: (main demoEnv ["base_task", "5", "10", "5"] 3).trace.drop 18
      ∧ loopView ((main demoEnv ["base_task", "5", "10", "5"] 3).trace.take 17)
        = rounds (jobCalls ((main demoEnv ["base_task", "5", "10", "5"] 3).trace.take 17))
          ++ [LoopEv.sleep] :=
  ⟨by decide,
    ((C6_alternation demoEnv "base_task" "5" "10" "5" 3).2
      ((main demoEnv ["base_task", "5", "10", "5"] 3).trace.take 17)
      ((main demoEnv ["base_task", "5", "10", "5"] 3).trace.drop 18) (by decide)).1⟩

/-- C2: let `cb` stand in the place of `job`. If invocations `1 .. m` of `cb`
return 0 and invocation `k = m + 1` returns non-zero, then `main`, given any
number `fuel >= k` of iterations to run, makes exactly `k` callback invocations
and exactly `k` calls of `sleep_next_period`; the return of invocation `k` is
followed at once by `CALL(task_mode(BACKGROUND_TASK))`, which ends the trace and
is the only call of `task_mode(BACKGROUND_TASK)`; and `main` returns 0, holding
the counters invocation `k` left. -/
theorem C2_stop_ends_loop (cb : Callback) (env : Env) (a0 a1 a2 a3 : String) (m fuel : Nat)
    (hfuel : m + 1 ≤ fuel)
    (hcont : ∀ j, j < m → (nthInvocation cb env (env.atoi a3) j).ret = 0)
    (hstop : (nthInvocation cb env (env.atoi a3) m).ret ≠ 0) :
    jobCalls (mainWith cb env [a0, a1, a2, a3] fuel).trace = m + 1
      ∧ callsOf SchedCall.sleep_next_period (mainWith cb env [a0, a1, a2, a3] fuel).trace = m + 1
      ∧ callsOf (SchedCall.task_mode TaskMode.BACKGROUND_TASK)
          (mainWith cb env [a0, a1, a2, a3] fuel).trace = 1
      ∧ (∃ pre, (mainWith cb env [a0, a1, a2, a3] fuel).trace
          = pre ++ Event.job_ret (nthInvocation cb env (env.atoi a3) m).ret :: teardown env)
      ∧ (mainWith cb env [a0, a1, a2, a3] fuel).outcome
          = Outcome.returned 0 (nthInvocation cb env (env.atoi a3) m).counter
              (nthInvocation cb env (env.atoi a3) m).pCounter := by
  obtain ⟨g1, g2, g3, g4, g5, pre, g6⟩ :=
    job_loop_stops cb env env.gettid (env.atoi a3) m fuel 0 0 0 hfuel hcont hstop
  have hrun : mainWith cb env [a0, a1, a2, a3] fuel =
      { trace := startup env (env.atoi a1) (env.atoi a2)
          ++ (job_loop cb env env.gettid (env.atoi a3) fuel 0 0 0).trace ++ teardown env
        outcome := Outcome.returned 0
          (job_loop cb env env.gettid (env.atoi a3) fuel 0 0 0).counter
          (job_loop cb env env.gettid (env.atoi a3) fuel 0 0 0).pCounter } := by
    simp [mainWith, g1]
  have hview : loopView (mainWith cb env [a0, a1, a2, a3] fuel).trace = rounds (m + 1) := by
    rw [hrun]
    have h1 := loopView_startup env (env.atoi a1) (env.atoi a2)
    have h3 := loopView_teardown env
    simp only [loopView, List.filterMap_append] at h1 h3 g4 ⊢
    rw [h1, h3, g4, List.nil_append, List.append_nil]
  refine ⟨?_, ?_, ?_, ?_, ?_⟩
  · rw [jobCalls_eq_count, hview]
    exact (count_rounds _).2.1
  · rw [sleeps_eq_count, hview]
    exact (count_rounds _).1
  · rw [hrun]
    have h1 := callsOf_startup_background env (env.atoi a1) (env.atoi a2)
    have h2 := callsOf_inLoop (SchedCall.task_mode TaskMode.BACKGROUND_TASK) (by simp) _ g5
    have h3 := callsOf_teardown_background env
    simp only [callsOf, List.countP_append] at h1 h2 h3 ⊢
    rw [h1, h2, h3]
  · refine ⟨startup env (env.atoi a1) (env.atoi a2) ++ pre, ?_⟩
    rw [hrun]
    simp only [g6, nthInvocation]
    simp
  · rw [hrun, g2, g3]
    rfl

/-- C2 for a callback that asks to stop on invocation 3, given 10 iterations. -/
theorem C2_stop_ends_loop_witness :
    (2 + 1 ≤ 10
        ∧ (∀ j, j < 2 → (nthInvocation stopAtThird demoEnv (demoEnv.atoi "5") j).ret = 0)
        ∧ (nthInvocation stopAtThird demoEnv (demoEnv.atoi "5") 2).ret ≠ 0)
      ∧ jobCalls (mainWith stopAtThird demoEnv ["base_task", "5", "10", "5"] 10).trace = 2 + 1
      ∧ callsOf SchedCall.sleep_next_period
          (mainWith stopAtThird demoEnv ["base_task", "5", "10", "5"] 10).trace = 2 + 1
      ∧ callsOf (SchedCall.task_mode TaskMode.BACKGROUND_TASK)
          (mainWith stopAtThird demoEnv ["base_task", "5", "10", "5"] 10).trace = 1
      ∧ (mainWith stopAtThird demoEnv ["base_task", "5", "10", "5"] 10).outcome
          = Outcome.returned 0
              (nthInvocation stopAtThird demoEnv (demoEnv.atoi "5") 2).counter
              (nthInvocation stopAtThird demoEnv (demoEnv.atoi "5") 2).pCounter :=
  have h := C2_stop_ends_loop stopAtThird demoEnv "base_task" "5" "10" "5" 2 10 (by decide)
    (by decide) (by decide)
  ⟨⟨by decide, by decide, by decide⟩, h.1, h.2.1, h.2.2.1, h.2.2.2.2⟩

/-- C3, as stated, fails for the pair (0, 10): it does not satisfy
`0 < executionCost <= period`, yet `main` calls `sporadic_global(0, 10)` and goes
on to its job loop instead of exiting. -/
theorem C3_counterexample :
    ¬ (0 < demoEnv.atoi "0" ∧ demoEnv.atoi "0" ≤ demoEnv.atoi "10")
      ∧ callsOf (SchedCall.sporadic_global 0 10)
          (main demoEnv ["base_task", "0", "10", "5"] 1).trace = 1
      ∧ (main demoEnv ["base_task", "0", "10", "5"] 1).outcome = Outcome.running 0 1 := by
  decide

/-- C3, amended: for every pair (executionCost, period) read from the arguments,
whether or not `0 < executionCost <= period`, `main` makes no check of its own: it
opens with `CALL(init_litmus())` and `CALL(sporadic_global(executionCost, period))`,
calls `sporadic_global` with that pair exactly once, and does not exit but goes on
to its job loop. -/
theorem C3_no_reservation_check (env : Env) (a0 a1 a2 a3 : String) (n : Nat) :
    (main env [a0, a1, a2, a3] n).trace.take 4
        = CALL "init_litmus()" SchedCall.init_litmus env.init_litmus
          ++ CALL "sporadic_global(EXEC_COST, PERIOD)"
              (SchedCall.sporadic_global (env.atoi a1) (env.atoi a2))
              (env.sporadic_global (env.atoi a1) (env.atoi a2))
      ∧ callsOf (SchedCall.sporadic_global (env.atoi a1) (env.atoi a2))
          (main env [a0, a1, a2, a3] n).trace = 1
      ∧ ∃ c p, (main env [a0, a1, a2, a3] n).outcome = Outcome.running c p := by
  refine ⟨?_, ?_, ?_⟩
  · rw [main_run]
    simp [startup, CALL]
  · rw [main_run]
    have h1 : callsOf (SchedCall.sporadic_global (env.atoi a1) (env.atoi a2))
        (startup env (env.atoi a1) (env.atoi a2)) = 1 := by
      simp only [startup, CALL, callsOf]
      split_ifs <;> simp [List.countP_cons]
    have h2 := callsOf_inLoop (SchedCall.sporadic_global (env.atoi a1) (env.atoi a2))
      (by simp) _ (job_loop_job_events env env.gettid (env.atoi a3) n 0 0 0)
    simp only [callsOf, List.countP_append] at h1 h2 ⊢
    rw [h1, h2]
  · rw [main_run]
    exact ⟨_, _, rfl⟩

/-- C4, as stated, fails when `sporadic_global` returns -1: the call
`task_mode(LITMUS_RT_TASK)` is made all the same. -/
theorem C4_counterexample :
    admitFailEnv.sporadic_global (admitFailEnv.atoi "5") (admitFailEnv.atoi "10") ≠ 0
      ∧ callsOf (SchedCall.task_mode TaskMode.LITMUS_RT_TASK)
          (main admitFailEnv ["base_task", "5", "10", "5"] 0).trace = 1 := by
  decide

/-- C4, amended: in every run of `main` in which `sporadic_global(EXEC_COST, PERIOD)`
returns failure, the failure is reported on stderr and the very next event is the
call `task_mode(LITMUS_RT_TASK)`, which is made exactly once. -/
theorem C4_admission_failure_reported (env : Env) (a0 a1 a2 a3 : String) (n : Nat)
    (hfail : env.sporadic_global (env.atoi a1) (env.atoi a2) ≠ 0) :
    ((main env [a0, a1, a2, a3] n).trace.drop 2).take 3
        = [Event.call (SchedCall.sporadic_global (env.atoi a1) (env.atoi a2))
             (env.sporadic_global (env.atoi a1) (env.atoi a2)),
           Event.stderr_failed "sporadic_global(EXEC_COST, PERIOD)",
           Event.call (SchedCall.task_mode TaskMode.LITMUS_RT_TASK)
             (env.task_mode TaskMode.LITMUS_RT_TASK)]
      ∧ callsOf (SchedCall.task_mode TaskMode.LITMUS_RT_TASK)
          (main env [a0, a1, a2, a3] n).trace = 1 := by
  refine ⟨?_, ?_⟩
  · rw [main_run]
    simp [startup, CALL, hfail]
  · rw [main_run]
    have h1 : callsOf (SchedCall.task_mode TaskMode.LITMUS_RT_TASK)
        (startup env (env.atoi a1) (env.atoi a2)) = 1 := by
      simp only [startup, CALL, callsOf]
      split_ifs <;> simp [List.countP_cons]
    have h2 := callsOf_inLoop (SchedCall.task_mode TaskMode.LITMUS_RT_TASK)
      (by simp) _ (job_loop_job_events env env.gettid (env.atoi a3) n 0 0 0)
    simp only [callsOf, List.countP_append] at h1 h2 ⊢
    rw [h1, h2]

/-- C4, amended, in a run whose admission call returns -1. -/
theorem C4_admission_failure_reported_witness :
    admitFailEnv.sporadic_global (admitFailEnv.atoi "5") (admitFailEnv.atoi "10") ≠ 0
      ∧ callsOf (SchedCall.task_mode TaskMode.LITMUS_RT_TASK)
          (main admitFailEnv ["base_task", "5", "10", "5"] 3).trace = 1 :=
  ⟨by decide,
    (C4_admission_failure_reported admitFailEnv "base_task" "5" "10" "5" 3 (by decide)).2⟩

/-- C5, as stated, fails when `task_mode(LITMUS_RT_TASK)` returns -1: the job
loop starts all the same, and two iterations call `sleep_next_period` and `job`
twice each. -/
theorem C5_counterexample :
    enterFailEnv.task_mode TaskMode.LITMUS_RT_TASK ≠ 0
      ∧ callsOf SchedCall.sleep_next_period
          (main enterFailEnv ["base_task", "5", "10", "5"] 2).trace = 2
      ∧ jobCalls (main enterFailEnv ["base_task", "5", "10", "5"] 2).trace = 2 := by
  decide

/-- C5, amended: in every run of `main` in which `task_mode(LITMUS_RT_TASK)`
returns failure, the failure is reported on stderr, `gettid` and
`wait_for_ts_release` follow, and the job loop starts all the same: after `n`
iterations `sleep_next_period` and `job` have been invoked `n` times each, in
rounds of sleep, call, return. -/
theorem C5_entry_failure_reported (env : Env) (a0 a1 a2 a3 : String) (n : Nat)
    (hfail : env.task_mode TaskMode.LITMUS_RT_TASK ≠ 0) :
    ((main env [a0, a1, a2, a3] n).trace.drop 4).take 4
        = [Event.call (SchedCall.task_mode TaskMode.LITMUS_RT_TASK)
             (env.task_mode TaskMode.LITMUS_RT_TASK),
           Event.stderr_failed "task_mode(LITMUS_RT_TASK)",
           Event.gettid env.gettid,
           Event.call SchedCall.wait_for_ts_release env.wait_for_ts_release]
      ∧ loopView (main env [a0, a1, a2, a3] n).trace = rounds n
      ∧ callsOf SchedCall.sleep_next_period (main env [a0, a1, a2, a3] n).trace = n
      ∧ jobCalls (main env [a0, a1, a2, a3] n).trace = n := by
  refine ⟨?_, ?_, main_sleeps env a0 a1 a2 a3 n, main_jobCalls env a0 a1 a2 a3 n⟩
  · rw [main_run]
    simp [startup, CALL, hfail]
  · rw [main_run]
    have h1 := loopView_startup env (env.atoi a1) (env.atoi a2)
    have h2 := job_loop_job_view env env.gettid (env.atoi a3) n 0 0 0
    simp only [loopView, List.filterMap_append] at h1 h2 ⊢
    rw [h1, h2, List.nil_append]

/-- C5, amended, in a run whose switch to real-time mode returns -1. -/
theorem C5_entry_failure_reported_witness :
    enterFailEnv.task_mode TaskMode.LITMUS_RT_TASK ≠ 0
      ∧ callsOf SchedCall.sleep_next_period
          (main enterFailEnv ["base_task", "5", "10", "5"] 4).trace = 4
      ∧ jobCalls (main enterFailEnv ["base_task", "5", "10", "5"] 4).trace = 4 :=
  ⟨by decide,
    (C5_entry_failure_reported enterFailEnv "base_task" "5" "10" "5" 4 (by decide)).2.2⟩

/-- C7, as stated, fails when `wait_for_ts_release` and `sleep_next_period`
return -1: both calls are in the trace with that return value, yet the only
reports are the three `ok` lines of the calls made before them. -/
theorem C7_counterexample :
    Event.call SchedCall.wait_for_ts_release (-1)
        ∈ (main waitFailEnv ["base_task", "5", "10", "5"] 1).trace
      ∧ Event.call SchedCall.sleep_next_period (-1)
        ∈ (main waitFailEnv ["base_task", "5", "10", "5"] 1).trace
      ∧ reports (main waitFailEnv ["base_task", "5", "10", "5"] 1).trace
        = [Event.stderr_ok "init_litmus()", Event.stderr_ok "sporadic_global(EXEC_COST, PERIOD)",
           Event.stderr_ok "task_mode(LITMUS_RT_TASK)"] := by
  decide

/-- C7, amended: in every run of `main` on four arguments, with any callback in
the place of `job`, the calls made through `CALL` (`init_litmus`,
`sporadic_global`, `task_mode`) are the calls that are reported: the reports in
the trace are, in order, one for each such call, `ok` when the call returned 0
and `failed` otherwise, each right after its call; `wait_for_ts_release` and
`sleep_next_period` get no report; and the process does not exit on any of them. -/
theorem C7_outcomes_reported (cb : Callback) (env : Env) (a0 a1 a2 a3 : String) (n : Nat) :
    reports (mainWith cb env [a0, a1, a2, a3] n).trace
        = dueReports (mainWith cb env [a0, a1, a2, a3] n).trace
      ∧ (∀ pre c r post,
          (mainWith cb env [a0, a1, a2, a3] n).trace = pre ++ Event.call c r :: post →
          viaCALL c = true → post.head? = some (reportOf c r))
      ∧ ∀ code, (mainWith cb env [a0, a1, a2, a3] n).outcome ≠ Outcome.exited code := by
  obtain ⟨L, hL, h⟩ := mainWith_shape cb env a0 a1 a2 a3 n
  have r1 := reports_startup env (env.atoi a1) (env.atoi a2)
  have r2 := reports_inLoop L hL
  have r3 := reports_teardown env
  have d2 := dueReports_inLoop L hL
  have hap : ∀ xs ys, reports (xs ++ ys) = reports xs ++ reports ys := by
    intro xs ys
    simp [reports]
  have hdp : ∀ xs ys, dueReports (xs ++ ys) = dueReports xs ++ dueReports ys := by
    intro xs ys
    simp [dueReports, List.filterMap_append]
  have a1r := Reported.startup env (env.atoi a1) (env.atoi a2)
  have a2r := Reported.of_inLoop L hL
  have a3r := Reported.teardown env
  rcases h with ⟨htr, c, p, hout⟩ | ⟨htr, c, p, hout⟩
  · refine ⟨?_, ?_, ?_⟩
    · rw [htr, hap, hdp, r1, r2, d2]
    · rw [htr]
      exact Reported.append a1r a2r
    · intro code
      rw [hout]
      simp
  · refine ⟨?_, ?_, ?_⟩
    · rw [htr, hap, hap, hdp, hdp, r1, r2, d2, r3]
    · rw [htr]
      exact Reported.append (Reported.append a1r a2r) a3r
    · intro code
      rw [hout]
      simp

/-- C7, amended, at the admission call of a run in which that call returns -1. -/
theorem C7_outcomes_reported_witness :
    ((main admitFailEnv ["base_task", "5", "10", "5"] 2).trace
        = (main admitFailEnv ["base_task", "5", "10", "5"] 2).trace.take 2
          ++ Event.call (SchedCall.sporadic_global 5 10) (-1)
            :: (main admitFailEnv ["base_task", "5", "10", "5"] 2).trace.drop 3
        ∧ viaCALL (SchedCall.sporadic_global 5 10) = true)
      ∧ ((main admitFailEnv ["base_task", "5", "10", "5"] 2).trace.drop 3).head?
        = some (reportOf (SchedCall.sporadic_global 5 10) (-1))
      ∧ reportOf (SchedCall.sporadic_global 5 10) (-1)
        = Event.stderr_failed "sporadic_global(EXEC_COST, PERIOD)" :=
  ⟨⟨by decide, rfl⟩,
    (C7_outcomes_reported (fun _ => job) admitFailEnv "base_task" "5" "10" "5" 2).2.1
      ((main admitFailEnv ["base_task", "5", "10", "5"] 2).trace.take 2)
      (SchedCall.sporadic_global 5 10) (-1)
      ((main admitFailEnv ["base_task", "5", "10", "5"] 2).trace.drop 3) (by decide) rfl,
    by decide⟩

end BaseTask
